import Mathlib

/-!
Verification of the juju repository's specification against its code.

The `provider`, `metricworker` and `terminationworker` namespaces embed Go
source under `src/` (file and line references are given on each definition).
The `dependency` namespace models the dependency-driven lifecycle engine; its
source is not part of `src/`, so every definition there is modelled from the
specification (spec.md) and marked as such.

Go conventions used throughout the embedding: a Go `error` result is an
`Option` value (`none` is Go's `nil` error); a Go string is a Lean `String`;
a Go `nil` map or pointer is `none`.
-/

namespace provider

/-- Error values produced by the kubernetes provider cloud code
(src/caas/kubernetes/provider/cloud.go).  Each constructor embeds one of the
error shapes the Go code builds: `notValid` is `errors.NotValidf`,
`clusterQuery` is `ClusterQueryError{Message}`, `annotated` is
`errors.Annotatef` wrapping a cause, `unknownCluster` is
`UnknownClusterError{CloudName}`, `noRecommendedStorage` is
`NoRecommendedStorageError{Message, ProviderName}`, `wrappedNotFound` is
`errors.Wrap(err, errors.NotFoundf(...))`, `traced` is `errors.Trace` of a
collaborator error, and `goError` is an opaque error from a collaborator. -/
inductive K8sError where
  | notValid (what : String)
  | clusterQuery (message : String)
  | annotated (note : String) (cause : K8sError)
  | unknownCluster (cloudName : String)
  | noRecommendedStorage (message providerName : String)
  | wrappedNotFound (what : String)
  | traced (message : String)
  | goError (message : String)
deriving DecidableEq, Repr

/-- Embeds Go `strings.SplitN(s, "/", 2)` on the character list of `s`, with
`acc` the characters of the current field read so far (in reverse): the result
is `[s]` when `s` has no `'/'`, and `[before, after]` split at the first `'/'`
otherwise. -/
def splitN2 : List Char → List Char → List (List Char)
  | [], acc => [acc.reverse]
  | c :: rest, acc =>
    if c = '/' then [acc.reverse, rest] else splitN2 rest (c :: acc)

/-- Embeds `ParseCloudRegion` (src/caas/kubernetes/provider/cloud.go:211-217):
splits `cloudRegion` on the first `/` and fails with a not-valid error unless
there are exactly two non-empty fields. -/
def ParseCloudRegion (cloudRegion : String) : String × String × Option K8sError :=
  let fields := splitN2 cloudRegion.data []
  match fields with
  | [c, r] =>
    if c.isEmpty || r.isEmpty then ("", "", some (.notValid cloudRegion))
    else (String.mk c, String.mk r, none)
  | _ => ("", "", some (.notValid cloudRegion))

/-- Embeds the fields of `cloud.Region` used by cloud.go: the Go code builds
`cloud.Region{Name: region}`, leaving `Endpoint` at its zero value. -/
structure Region where
  Name : String
  Endpoint : String := ""
deriving DecidableEq, Repr

/-- Embeds the fields of `cloud.Cloud` that `UpdateKubeCloudWithStorage`
(src/caas/kubernetes/provider/cloud.go:95-208) reads or writes:
`HostCloudRegion`, `Regions` and the `Config` map.  `Config = none` is Go's
nil map. -/
structure Cloud where
  HostCloudRegion : String := ""
  Regions : List Region := []
  Config : Option (List (String × String)) := none
deriving DecidableEq, Repr

/-- Embeds `caas.StorageProvisioner` as built at
src/caas/kubernetes/provider/cloud.go:159-163: a name, a provisioner and
provisioner parameters. -/
structure StorageProvisioner where
  Name : String
  Provisioner : String := ""
  Parameters : List (String × String) := []
deriving DecidableEq, Repr

/-- Embeds the `caas` storage class records (`NominatedStorageClass`,
`OperatorStorageClass`): the Go code only reads their `Name` field. -/
structure StorageClass where
  Name : String
deriving DecidableEq, Repr

/-- Embeds `caas.ClusterMetadata` as read by cloud.go: the host cloud name,
the region set (`none` is a nil set; the list holds the set's sorted values,
so `SortedValues()[0]` is the list head), and the nominated and operator
storage classes (`none` is a nil pointer). -/
structure ClusterMetadata where
  Cloud : String := ""
  Regions : Option (List String) := none
  NominatedStorageClass : Option StorageClass := none
  OperatorStorageClass : Option StorageClass := none
deriving DecidableEq, Repr

/-- Embeds the error returned by `CheckDefaultWorkloadStorage`, as
discriminated by cloud.go: `errors.IsNotFound`, the
`caas.NonPreferredStorageError` shape (with the fields cloud.go reads), or any
other error. -/
inductive CheckStorageError where
  | notFound
  | nonPreferred (Name Provisioner : String) (Parameters : List (String × String))
  | otherErr (message : String)
deriving DecidableEq, Repr

/-- Embeds the error returned by `EnsureStorageProvisioner`, as discriminated
by cloud.go: `errors.IsNotFound` or any other error. -/
inductive EnsureError where
  | notFound
  | otherErr (message : String)
deriving DecidableEq, Repr

/-- Embeds the `caas.ClusterMetadataChecker` collaborator as an oracle: the
results of the three calls cloud.go makes on it.  `GetClusterMetadata` yields
the metadata pointer (`none` is nil) and the error; the two storage calls are
functions of the arguments cloud.go passes them. -/
structure ClusterMetadataChecker where
  GetClusterMetadata : Option ClusterMetadata × Option String
  CheckDefaultWorkloadStorage : String → Option StorageClass → Option CheckStorageError
  EnsureStorageProvisioner : StorageProvisioner → StorageProvisioner × Option EnsureError

/-- Embeds `KubeCloudStorageParams` (src/caas/kubernetes/provider/cloud.go:41-46). -/
structure KubeCloudStorageParams where
  WorkloadStorage : String
  HostCloudRegion : String
  MetadataChecker : ClusterMetadataChecker
  GetClusterMetadataFunc : ClusterMetadataChecker → Option ClusterMetadata × Option String

/-- Modelled from the spec: the `cloud` package's `BuildHostCloudRegion`
(its file is outside src/) joins a host cloud name and region into the
`cloud/region` form that `ParseCloudRegion` parses. -/
def BuildHostCloudRegion (cloudType region : String) : String :=
  cloudType ++ "/" ++ region

/-- Modelled from the spec: the `cloud` package's `SplitHostCloudRegion`
(its file is outside src/) splits a host cloud region on the first `/`,
the inverse of `BuildHostCloudRegion`. -/
def SplitHostCloudRegion (hostCloudRegion : String) : List String :=
  (splitN2 hostCloudRegion.data []).map String.mk

/-- Modelled from the spec: the provider's `WorkloadStorageKey` config key
(its file is outside src/). -/
def WorkloadStorageKey : String := "workload-storage"

/-- Modelled from the spec: the provider's `OperatorStorageKey` config key
(its file is outside src/). -/
def OperatorStorageKey : String := "operator-storage"

/-- Embeds Go's `%q` format verb as used by the messages in cloud.go. -/
def goQuote (s : String) : String := "\"" ++ s ++ "\""

/-- Modelled from the spec: the `Error()` message of a
`caas.NonPreferredStorageError` (its file is outside src/), used at
src/caas/kubernetes/provider/cloud.go:140 for `NoRecommendedStorageError`. -/
def nonPreferredMessage (name : String) : String :=
  "storage class " ++ goQuote name ++ " requires cluster configuration"

/-- Embeds src/caas/kubernetes/provider/cloud.go:183-207, the tail of
`UpdateKubeCloudWithStorage` after the workload storage has been settled:
records the operator storage, extends the storage message, and fills the
cloud's config map (creating it when nil) without overwriting existing
entries.  Returns the updated cloud and the final storage message. -/
def finishCloudStorage (k8sCloud : Cloud) (clusterMetadata : ClusterMetadata)
    (storageMsg workloadStorage : String) : Cloud × String :=
  let (operatorStorageName, storageMsg) :=
    match clusterMetadata.OperatorStorageClass with
    | some sc => (sc.Name, storageMsg ++ ".")
    | none =>
      (workloadStorage,
        (if storageMsg = "" then storageMsg ++ "\nwith " else storageMsg ++ "\n") ++
          "operator storage provisioned by the workload storage class.")
  let config0 := match k8sCloud.Config with
    | none => []
    | some m => m
  let config1 :=
    if (config0.lookup WorkloadStorageKey).isSome then config0
    else config0 ++ [(WorkloadStorageKey, workloadStorage)]
  let config2 :=
    if (config1.lookup OperatorStorageKey).isSome then config1
    else config1 ++ [(OperatorStorageKey, operatorStorageName)]
  ({ k8sCloud with Config := some config2 }, storageMsg)

/-- Embeds src/caas/kubernetes/provider/cloud.go:148-181: the
workload-storage branch of `UpdateKubeCloudWithStorage` run once the cloud has
been updated with its host cloud region (`k8sCloud` here is already the
updated cloud).  `checkErr` is the error from `CheckDefaultWorkloadStorage`.
Mirrors the Go: when `WorkloadStorage` is set, ensure the storage provisioner
(failing with a wrapped not-found or an annotated error) and build the
storage message; when it is empty, fall back to the nominated storage class;
then finish via `finishCloudStorage`. -/
def provisionWorkloadStorage (k8sCloud : Cloud) (clusterMetadata : ClusterMetadata)
    (storageParams : KubeCloudStorageParams) (checkErr : Option CheckStorageError) :
    Cloud × String × Option K8sError :=
  if storageParams.WorkloadStorage = "" then
    let workloadStorage :=
      match clusterMetadata.NominatedStorageClass with
      | some sc => sc.Name
      | none => storageParams.WorkloadStorage
    let finished := finishCloudStorage k8sCloud clusterMetadata "" workloadStorage
    (finished.1, finished.2, none)
  else
    let nonPreferredOpt :=
      match checkErr with
      | some (.nonPreferred n p ps) => some (n, p, ps)
      | _ => none
    let provisioner := match nonPreferredOpt with
      | some (_, p, _) => p
      | none => ""
    let params := match nonPreferredOpt with
      | some (_, _, ps) => ps
      | none => []
    let ensureRes := storageParams.MetadataChecker.EnsureStorageProvisioner
      { Name := storageParams.WorkloadStorage, Provisioner := provisioner, Parameters := params }
    let sp := ensureRes.1
    match ensureRes.2 with
    | some .notFound =>
      (k8sCloud, "",
        some (.wrappedNotFound ("storage class " ++ goQuote storageParams.WorkloadStorage)))
    | some (.otherErr m) =>
      (k8sCloud, "",
        some (.annotated ("creating storage class " ++ goQuote storageParams.WorkloadStorage)
          (.goError m)))
    | none =>
      let storageMsg :=
        match nonPreferredOpt with
        | some (n, p, _) =>
          if sp.Provisioner = p then
            let m := " with " ++ n ++ " default storage"
            if storageParams.WorkloadStorage ≠ "" then
              m ++ " provisioned\nby the existing " ++
                goQuote storageParams.WorkloadStorage ++ " storage class"
            else m
          else
            " with storage provisioned\nby the existing " ++
              goQuote storageParams.WorkloadStorage ++ " storage class"
        | none =>
          " with storage provisioned\nby the existing " ++
            goQuote storageParams.WorkloadStorage ++ " storage class"
      let finished :=
        finishCloudStorage k8sCloud clusterMetadata storageMsg storageParams.WorkloadStorage
      (finished.1, finished.2, none)

/-- Embeds src/caas/kubernetes/provider/cloud.go:112-145: the body of
`UpdateKubeCloudWithStorage` once the cluster metadata has been obtained —
derive the host cloud region (failing with an empty `ClusterQueryError` when
none can be determined), validate it, update the cloud's host cloud region
and region list, check the default workload storage (when none was requested,
failing with the unknown-cluster, no-recommended-storage or traced error),
and hand over to `provisionWorkloadStorage`. -/
def updateWithClusterMetadata (k8sCloud : Cloud) (storageParams : KubeCloudStorageParams)
    (clusterMetadata : ClusterMetadata) : Cloud × String × Option K8sError :=
  let hostCloudRegion :=
    match storageParams.HostCloudRegion, clusterMetadata.Regions with
    | "", some (r :: _) => BuildHostCloudRegion clusterMetadata.Cloud r
    | hcr, _ => hcr
  if hostCloudRegion = "" then (k8sCloud, "", some (.clusterQuery ""))
  else
    match ParseCloudRegion hostCloudRegion with
    | (_, _, some e) =>
      (k8sCloud, "",
        some (.annotated ("validating cloud region " ++ goQuote hostCloudRegion) e))
    | (_, region, none) =>
      let k8sCloud1 : Cloud :=
        { k8sCloud with
          HostCloudRegion := hostCloudRegion
          Regions := [{ Name := region }] }
      let cloudType := (SplitHostCloudRegion hostCloudRegion).headD ""
      let checkErr := storageParams.MetadataChecker.CheckDefaultWorkloadStorage
        cloudType clusterMetadata.NominatedStorageClass
      if storageParams.WorkloadStorage = "" then
        match checkErr with
        | some .notFound => (k8sCloud1, "", some (.unknownCluster cloudType))
        | some (.nonPreferred n _ _) =>
          (k8sCloud1, "", some (.noRecommendedStorage (nonPreferredMessage n) n))
        | some (.otherErr m) => (k8sCloud1, "", some (.traced m))
        | none => provisionWorkloadStorage k8sCloud1 clusterMetadata storageParams checkErr
      else provisionWorkloadStorage k8sCloud1 clusterMetadata storageParams checkErr

/-- Embeds `UpdateKubeCloudWithStorage`
(src/caas/kubernetes/provider/cloud.go:95-208).  The Go function mutates
`*k8sCloud`; here the first component of the result is the final value of
that cloud (equal to the argument whenever the Go code returns before its
first assignment to a `k8sCloud` field).  Returns the cloud, the storage
message and the error. -/
def UpdateKubeCloudWithStorage (k8sCloud : Cloud) (storageParams : KubeCloudStorageParams) :
    Cloud × String × Option K8sError :=
  match storageParams.GetClusterMetadataFunc storageParams.MetadataChecker with
  | (_, some e) => (k8sCloud, "", some (.clusterQuery e))
  | (none, none) => (k8sCloud, "", some (.clusterQuery "cannot get cluster metadata"))
  | (some clusterMetadata, none) =>
    updateWithClusterMetadata k8sCloud storageParams clusterMetadata

end provider

namespace metricworker

/-- Outcome of one run of the iteration function that `newCleanup` installs
in its periodic worker: the Go error the function returns, the messages
delivered to the notify channel during the run, and the warnings logged. -/
structure CleanupOutcome where
  result : Option String
  sent : List String
  logged : List String
deriving DecidableEq, Repr

/-- Embeds the iteration function `f` defined inside `newCleanup`
(src/acceptancetests/repository/charms/simple-resource-http/hooks/install,
metricworker part, lines 52-63).  `cleanupErr` is the result of the
`client.CleanupOldMetrics()` call (an oracle for the collaborator), and
`notifyReady` says whether a send on the notify channel would be accepted
right now (false for a nil or full unbuffered channel); the Go
`select`/`default` makes the send non-blocking, so a not-ready channel is
skipped rather than waited on. -/
def cleanupIteration (cleanupErr : Option String) (notifyReady : Bool) : CleanupOutcome :=
  match cleanupErr with
  | some e =>
    { result := none
      sent := []
      logged := ["failed to cleanup " ++ e ++ " - will retry later"] }
  | none =>
    if notifyReady then { result := none, sent := ["cleanupCalled"], logged := [] }
    else { result := none, sent := [], logged := [] }

/-- Modelled from the spec: `jworker.NewPeriodicWorker` (its file is outside
src/) runs the iteration function once per period and stops only when the
function returns a non-nil error; a nil result means the worker sleeps one
period and runs again. -/
def periodicWorkerStops (iterationResult : Option String) : Bool :=
  iterationResult.isSome

end metricworker

namespace dependency

/-- Modelled from the spec: §7's error taxonomy by escalation severity. -/
inductive Severity where
  | missing
  | bounce
  | retryable
  | fatal
deriving DecidableEq, Repr

/-- Modelled from the spec: the sentinel error values of §6 recognised by the
engine, its install/uninstall surface errors, its internal invariant
violations, and ordinary worker failures (`workerFailure`). -/
inductive EngineError where
  | errMissing
  | errBounce
  | errUninstalled
  | errTerminateAgent
  | errDuplicateName
  | errCyclicDependency
  | errStillDepended
  | errNotInstalled
  | errStopTimeout
  | workerFailure (code : Nat)
deriving DecidableEq, Repr

/-- Modelled from the spec: §7's classification step.  Missing-dependency
waits are not failures, uninstalled is purely informational (not escalated),
bounce is an intentional restart, terminate-agent and the internal invariant
violations (stop timeout, duplicate live install, cyclic dependency) are
fatal, and everything else is retryable. -/
def classify : EngineError → Severity
  | .errMissing => .missing
  | .errUninstalled => .missing
  | .errBounce => .bounce
  | .errTerminateAgent => .fatal
  | .errStopTimeout => .fatal
  | .errDuplicateName => .fatal
  | .errCyclicDependency => .fatal
  | .errStillDepended => .retryable
  | .errNotInstalled => .retryable
  | .workerFailure _ => .retryable

/-- Modelled from the spec: §3's Component Declaration — the names of the
components it depends on and the optional error filter.  The start and output
functions are abstracted away: the engine claims below concern the graph
logic, for which §4.1 treats a start as succeeding whenever readiness holds
and an output as fetchable whenever its producer is started. -/
structure Declaration where
  inputs : List String
  filter : Option (EngineError → EngineError) := none

/-- Modelled from the spec: §3's worker lifecycle states. -/
inductive WorkerState where
  | stopped
  | starting
  | started
  | stopping
deriving DecidableEq, Repr

/-- Modelled from the spec: §3's engine-private worker record — the
declaration, the current lifecycle state, and the resource version counter. -/
structure Record where
  decl : Declaration
  state : WorkerState := .stopped
  resourceVersion : Nat := 0

/-- Modelled from the spec: §2's Engine — the set of installed declarations
with their worker records, keyed by unique name. -/
structure Engine where
  records : List (String × Record)

/-- Looks a name up in an association list (the engine's name-keyed maps). -/
def lookupName {α : Type} : List (String × α) → String → Option α
  | [], _ => none
  | (k, v) :: t, n => if k = n then some v else lookupName t n

/-- The installed declarations of an engine, keyed by name. -/
def Engine.decls (e : Engine) : List (String × Declaration) :=
  e.records.map (fun p => (p.1, p.2.decl))

/-- The names installed in a declaration list. -/
def keysOf (decls : List (String × Declaration)) : List String :=
  decls.map Prod.fst

/-- The declared inputs of an installed name (empty for a name that is not
installed). -/
def inputsOf (decls : List (String × Declaration)) (n : String) : List String :=
  match lookupName decls n with
  | some d => d.inputs
  | none => []

/-- Modelled from the spec: dependency reachability.  `reaches decls fuel a b`
holds when some chain of declared inputs of length between 1 and `fuel` leads
from `a` to `b`; with `fuel = decls.length` it decides "the inputs set of `a`
transitively includes `b`" (§3's invariant), since a shortest input chain
never repeats a name. -/
def reaches (decls : List (String × Declaration)) : Nat → String → String → Bool
  | 0, _, _ => false
  | fuel + 1, a, b =>
    (inputsOf decls a).any (fun m => m == b || reaches decls fuel m b)

/-- Modelled from the spec: §3's acyclicity invariant, as a decidable check
over the installed names — no installed name transitively includes itself in
its inputs. -/
def acyclicDecls (decls : List (String × Declaration)) : Bool :=
  (keysOf decls).all (fun n => !(reaches decls decls.length n n))

/-- Modelled from the spec: the `install(name, declaration)` event of §4.1.
Rejects a name that is already present with `ErrDuplicateName`; rejects a
declaration whose inputs would transitively include its own name with the
cycle-detected configuration error of §3; otherwise adds a Stopped record.
On either error the engine is returned unchanged. -/
def Engine.install (e : Engine) (name : String) (d : Declaration) :
    Engine × Option EngineError :=
  if (lookupName e.records name).isSome then (e, some .errDuplicateName)
  else
    let newDecls := e.decls ++ [(name, d)]
    if reaches newDecls newDecls.length name name then (e, some .errCyclicDependency)
    else ({ records := e.records ++ [(name, { decl := d })] }, none)

/-- Installs a list of declarations in order, stopping at the first error. -/
def Engine.installAll (e : Engine) (ds : List (String × Declaration)) :
    Engine × Option EngineError :=
  match ds with
  | [] => (e, none)
  | (n, d) :: t =>
    match e.install n d with
    | (e', none) => e'.installAll t
    | (e', some err) => (e', some err)

/-- The worker records freshly created for a list of installed declarations:
one Stopped record per declaration (§3's record lifecycle at creation). -/
def recordsOf (ds : List (String × Declaration)) : List (String × Record) :=
  ds.map (fun p => (p.1, { decl := p.2 }))

/-- Modelled from the spec: the `uninstall(name)` event of §4.1.  Fails with
`ErrStillDepended` when any currently-installed declaration lists the name
among its inputs, leaving the engine unchanged; otherwise the record is
stopped and removed. -/
def Engine.uninstall (e : Engine) (name : String) : Engine × Option EngineError :=
  match lookupName e.records name with
  | none => (e, some .errNotInstalled)
  | some _ =>
    if e.records.any (fun p => p.2.decl.inputs.contains name) then
      (e, some .errStillDepended)
    else
      ({ records := e.records.filter (fun p => p.1 != name) }, none)

/-- Modelled from the spec: §4.1's readiness evaluation iterated from a fully
stopped engine, with starts succeeding.  `startedAt decls k n` holds when `n`
has started within `k` evaluation rounds: in each round every stopped name
whose declared inputs are all already started starts. -/
def startedAt (decls : List (String × Declaration)) : Nat → String → Bool
  | 0, _ => false
  | k + 1, n =>
    match lookupName decls n with
    | some d => d.inputs.all (fun m => startedAt decls k m)
    | none => false

/-- Modelled from the spec: the final started/stopped state after readiness
evaluation has quiesced — `decls.length` rounds always suffice, because a
new name starts in each round that changes anything. -/
def startedFinal (decls : List (String × Declaration)) (n : String) : Bool :=
  startedAt decls decls.length n

/-- The first readiness round in which a name starts (`decls.length + 1` for
a name that never starts). -/
def levelOf (decls : List (String × Declaration)) (n : String) : Nat :=
  match (List.range (decls.length + 1)).find? (fun k => startedAt decls k n) with
  | some k => k
  | none => decls.length + 1

/-- Modelled from the spec: the deterministic topological
(dependencies-before-dependents) order of §4.1, restricted to `names` —
names grouped by the readiness round in which they first start. -/
def topoOrder (decls : List (String × Declaration)) (names : List String) : List String :=
  ((List.range (decls.length + 2)).map
    (fun k => names.filter (fun n => levelOf decls n == k))).flatten

/-- Modelled from the spec: the order in which the engine starts the
installed components (§8's scenario: start order is dictated by the
dependency graph, not by installation order). -/
def startOrder (decls : List (String × Declaration)) : List String :=
  topoOrder decls (keysOf decls)

/-- The installed names whose inputs transitively include `target`. -/
def transitiveDependents (decls : List (String × Declaration)) (target : String) :
    List String :=
  (keysOf decls).filter (fun n => reaches decls decls.length n target)

/-- A stop or start of one named component, as observed from the engine's
control loop. -/
inductive Action where
  | stop (name : String)
  | start (name : String)
deriving DecidableEq, Repr

/-- Modelled from the spec: §4.1's cascading restart ("bounce") of `a` —
stop every transitive dependent in reverse topological order, stop `a`,
restart `a`, then restart the dependents in topological order. -/
def bounceTrace (decls : List (String × Declaration)) (a : String) : List Action :=
  let deps := topoOrder decls (transitiveDependents decls a)
  (deps.reverse.map Action.stop) ++ Action.stop a :: Action.start a :: deps.map Action.start

/-- Modelled from the spec: §4.2's `Context.get` — fails with `ErrMissing`
when the requested name is not a declared input of the calling component, or
when the named component is not currently started and providing output. -/
def contextGet (decls : List (String × Declaration)) (started : String → Bool)
    (caller res : String) : Option EngineError :=
  if !((inputsOf decls caller).contains res) then some .errMissing
  else if started res then none
  else some .errMissing

/-- Modelled from the spec: the `workerExited(name, err)` event payload of
§4.1 — the name of the worker and the raw error it exited with. -/
structure ExitEvent where
  name : String
  err : EngineError
deriving DecidableEq, Repr

/-- Modelled from the spec: §4.1 — a worker's exit error passes through its
declaration's filter, when there is one, before the engine classifies it. -/
def filteredError (decls : List (String × Declaration)) (ev : ExitEvent) : EngineError :=
  match lookupName decls ev.name with
  | some d =>
    match d.filter with
    | some f => f ev.err
    | none => ev.err
  | none => ev.err

/-- Modelled from the spec: §7 — the engine's terminal-result accumulator.
Before shutdown has begun (`acc = none`) a fatal classification records the
error; once shutdown has begun (`acc = some f`) no later error replaces it. -/
def absorbFatal (decls : List (String × Declaration)) (acc : Option EngineError)
    (ev : ExitEvent) : Option EngineError :=
  match acc with
  | some f => some f
  | none =>
    if classify (filteredError decls ev) = Severity.fatal then
      some (filteredError decls ev)
    else none

/-- Modelled from the spec: the value returned by the engine's
wait-for-completion operation for an execution whose worker exits arrive in
the order of `evs` — the first fatal error encountered, if any. -/
def engineResult (decls : List (String × Declaration)) (evs : List ExitEvent) :
    Option EngineError :=
  evs.foldl (absorbFatal decls) none

/-- Modelled from the spec: global shutdown stops every worker and waits for
full quiescence, so every record ends Stopped. -/
def Engine.stopAll (e : Engine) : Engine :=
  { records := e.records.map (fun p => (p.1, { p.2 with state := WorkerState.stopped })) }

/-- Modelled from the spec: the engine's terminal wait over an execution —
classify the worker exits in arrival order; on a fatal error shut every
component down and return that first fatal error. -/
def Engine.runToTermination (e : Engine) (evs : List ExitEvent) :
    Engine × Option EngineError :=
  match engineResult e.decls evs with
  | some f => (e.stopAll, some f)
  | none => (e, none)

/-- Modelled from the spec: §4.2's Context as seen by a start function — the
current outputs of the declared inputs and the abort signal. -/
structure Context where
  outputs : String → Option String
  aborted : Bool

/-- Embeds the Go `dependency.Manifold` struct (from
gopkg.in/juju/worker.v1/dependency, as used by src/unnamed/part_000):
declared inputs, the start function returning a worker and an error, and the
optional output and filter functions (`none` is a nil Go function field). -/
structure GoManifold (W : Type) where
  Inputs : List String
  Start : Context → W × Option String
  Output : Option (W → String → Option String)
  Filter : Option (String → String)

end dependency

namespace terminationworker

/-- Modelled from the spec: the worker value built by `NewWorker` — the
termination watcher's worker handle (the body of `NewWorker` is outside
src/; src/unnamed/part_000:11-12 documents that it returns ErrTerminateAgent
when a termination signal arrives). -/
inductive TerminationWorker where
  | watcher
deriving DecidableEq, Repr

/-- Embeds the `NewWorker()` call of src/unnamed/part_000:16. -/
def NewWorker : TerminationWorker := .watcher

/-- Embeds `Manifold` (src/unnamed/part_000:13-19): the termination watcher's
manifold sets only `Start`, which returns `NewWorker()` and a nil error;
`Inputs`, `Output` and `Filter` are left at their zero values. -/
def Manifold : dependency.GoManifold TerminationWorker :=
  { Inputs := []
    Start := fun _ => (NewWorker, none)
    Output := none
    Filter := none }

end terminationworker

/-- C7: the termination watcher's `Manifold()` value implements the component
contract in its minimal form — its declared inputs list is empty, its Output
and Filter functions are absent, and for every Context its Start function
returns a freshly created worker together with a nil error. -/
theorem terminationworker_manifold_minimal :
    terminationworker.Manifold.Inputs = [] ∧
    terminationworker.Manifold.Output = none ∧
    terminationworker.Manifold.Filter = none ∧
    ∀ ctx : dependency.Context,
      terminationworker.Manifold.Start ctx = (terminationworker.NewWorker, none) :=
  ⟨rfl, rfl, rfl, fun _ => rfl⟩

/-- C8: the iteration function installed by `newCleanup` returns nil on every
path — when `CleanupOldMetrics` fails it logs the failure, sends nothing and
still returns nil (so the periodic worker does not stop and retries a period
later), and when it succeeds the notification send never blocks: a ready
channel receives "cleanupCalled" and a full or nil channel is skipped. -/
theorem metricworker_cleanup_iteration_total :
    ∀ (e : String) (ready : Bool),
      (metricworker.cleanupIteration (some e) ready).result = none ∧
      (metricworker.cleanupIteration none ready).result = none ∧
      metricworker.periodicWorkerStops (metricworker.cleanupIteration (some e) ready).result
        = false ∧
      metricworker.periodicWorkerStops (metricworker.cleanupIteration none ready).result
        = false ∧
      (metricworker.cleanupIteration (some e) ready).logged
        = ["failed to cleanup " ++ e ++ " - will retry later"] ∧
      (metricworker.cleanupIteration (some e) ready).sent = [] ∧
      (metricworker.cleanupIteration none true).sent = ["cleanupCalled"] ∧
      (metricworker.cleanupIteration none false).sent = [] := by
  intro e ready
  cases ready <;>
    simp [metricworker.cleanupIteration, metricworker.periodicWorkerStops]

namespace provider

theorem splitN2_no_slash (s : List Char) :
    ∀ acc : List Char, '/' ∉ s → splitN2 s acc = [acc.reverse ++ s] := by
  induction s with
  | nil => intro acc _; simp [splitN2]
  | cons c rest ih =>
    intro acc hns
    have hc : ¬ c = '/' := fun h => hns (h ▸ List.mem_cons_self c rest)
    have hrest : '/' ∉ rest := fun h => hns (List.mem_cons_of_mem c h)
    simp [splitN2, hc, ih (c :: acc) hrest]

theorem splitN2_first_slash (a : List Char) :
    ∀ (b acc : List Char), '/' ∉ a → splitN2 (a ++ '/' :: b) acc = [acc.reverse ++ a, b] := by
  induction a with
  | nil => intro b acc _; simp [splitN2]
  | cons c rest ih =>
    intro b acc hns
    have hc : ¬ c = '/' := fun h => hns (h ▸ List.mem_cons_self c rest)
    have hrest : '/' ∉ rest := fun h => hns (List.mem_cons_of_mem c h)
    simp [splitN2, hc, ih b (c :: acc) hrest]

theorem exists_first_slash {l : List Char} (h : '/' ∈ l) :
    ∃ a b : List Char, l = a ++ '/' :: b ∧ '/' ∉ a := by
  induction l with
  | nil => cases h
  | cons c rest ih =>
    by_cases hc : c = '/'
    · exact ⟨[], rest, by simp [hc], by simp⟩
    · have hr : '/' ∈ rest := by
        rcases List.mem_cons.mp h with h1 | h2
        · exact absurd h1.symm hc
        · exact h2
      rcases ih hr with ⟨a, b, hab, hna⟩
      exact ⟨c :: a, b, by simp [hab], by
        intro hmem
        rcases List.mem_cons.mp hmem with h1 | h2
        · exact hc h1.symm
        · exact hna h2⟩

/-- C9: for every input string `s`, `ParseCloudRegion s` returns
`(cloud, region, nil)` with `cloud` the part of `s` before the first `/` and
`region` everything after it, exactly when `s` contains a `/` and both parts
are non-empty; for every other `s` it returns two empty strings and a
not-valid error. -/
theorem parseCloudRegion_first_slash_split (s : String) :
    (∀ a b : List Char, s.data = a ++ '/' :: b → '/' ∉ a → a ≠ [] → b ≠ [] →
      ParseCloudRegion s = (String.mk a, String.mk b, none)) ∧
    ((∀ a b : List Char, s.data = a ++ '/' :: b → '/' ∉ a → a = [] ∨ b = []) →
      ParseCloudRegion s = ("", "", some (K8sError.notValid s))) := by
  constructor
  · intro a b hdecomp hna ha hb
    have hsplit : splitN2 s.data [] = [a, b] := by
      rw [hdecomp]; simpa using splitN2_first_slash a b [] hna
    simp [ParseCloudRegion, hsplit, ha, hb]
  · intro hall
    by_cases hmem : '/' ∈ s.data
    · rcases exists_first_slash hmem with ⟨a, b, hab, hna⟩
      have hsplit : splitN2 s.data [] = [a, b] := by
        rw [hab]; simpa using splitN2_first_slash a b [] hna
      rcases hall a b hab hna with h | h <;> simp [ParseCloudRegion, hsplit, h]
    · have hsplit : splitN2 s.data [] = [s.data] := by
        simpa using splitN2_no_slash s.data [] hmem
      simp [ParseCloudRegion, hsplit]

/-- Witness for C9 at the concrete inputs "gce/us-east1" and "gce". -/
theorem parseCloudRegion_first_slash_split_witness :
    ParseCloudRegion "gce/us-east1" = ("gce", "us-east1", none) ∧
    ParseCloudRegion "gce" = ("", "", some (K8sError.notValid "gce")) := by
  constructor
  · exact (parseCloudRegion_first_slash_split "gce/us-east1").1 "gce".data "us-east1".data
      (by decide) (by decide) (by decide) (by decide)
  · refine (parseCloudRegion_first_slash_split "gce").2 ?_
    intro a b hab _
    exfalso
    have hmem : '/' ∈ "gce".data := by rw [hab]; simp
    revert hmem; decide

theorem provisionWorkloadStorage_no_clusterQuery
    (c : Cloud) (m : ClusterMetadata) (p : KubeCloudStorageParams)
    (ce : Option CheckStorageError) (msg : String) :
    ¬ (provisionWorkloadStorage c m p ce).2.2 = some (K8sError.clusterQuery msg) := by
  unfold provisionWorkloadStorage
  split
  · simp
  · split <;> (dsimp only; split <;> simp)

theorem updateWithClusterMetadata_frame_or_no_clusterQuery
    (c : Cloud) (p : KubeCloudStorageParams) (m : ClusterMetadata) :
    (updateWithClusterMetadata c p m).1 = c ∨
      ∀ msg, ¬ (updateWithClusterMetadata c p m).2.2 = some (K8sError.clusterQuery msg) := by
  unfold updateWithClusterMetadata
  dsimp only
  split
  · left; rfl
  · split
    · right; intro msg; simp
    · split
      · split
        · right; intro msg; simp
        · right; intro msg; simp
        · right; intro msg; simp
        · right; intro msg
          exact provisionWorkloadStorage_no_clusterQuery _ _ _ _ _
      · right; intro msg
        exact provisionWorkloadStorage_no_clusterQuery _ _ _ _ _

/-- C10: whenever `UpdateKubeCloudWithStorage` returns a `ClusterQueryError`
(cluster metadata unavailable, or no host cloud region could be determined),
the `cloud.Cloud` value pointed to by its `k8sCloud` argument is left
completely unchanged — the ClusterQueryError returns occur before any field
of `*k8sCloud` is assigned. -/
theorem updateKubeCloudWithStorage_clusterQuery_frame
    (c : Cloud) (p : KubeCloudStorageParams) (msg : String) :
    (UpdateKubeCloudWithStorage c p).2.2 = some (K8sError.clusterQuery msg) →
    (UpdateKubeCloudWithStorage c p).1 = c := by
  unfold UpdateKubeCloudWithStorage
  split
  · intro _; rfl
  · intro _; rfl
  · intro h
    rcases updateWithClusterMetadata_frame_or_no_clusterQuery c p _ with hframe | hno
    · exact hframe
    · exact absurd h (hno msg)

/-- Witness for C10: a checker whose metadata query fails leaves the cloud
untouched. -/
theorem updateKubeCloudWithStorage_clusterQuery_frame_witness :
    (UpdateKubeCloudWithStorage
      { HostCloudRegion := "gce/us-east1"
        Regions := [{ Name := "us-east1" }]
        Config := none }
      { WorkloadStorage := ""
        HostCloudRegion := ""
        MetadataChecker :=
          { GetClusterMetadata := (none, some "cluster unreachable")
            CheckDefaultWorkloadStorage := fun _ _ => none
            EnsureStorageProvisioner := fun sp => (sp, none) }
        GetClusterMetadataFunc := fun checker => checker.GetClusterMetadata }).1
      = { HostCloudRegion := "gce/us-east1"
          Regions := [{ Name := "us-east1" }]
          Config := none } :=
  updateKubeCloudWithStorage_clusterQuery_frame _ _ "cluster unreachable" rfl

end provider

namespace dependency

theorem mem_keys_of_lookupName {α : Type} :
    ∀ (l : List (String × α)) (n : String) (v : α),
      lookupName l n = some v → n ∈ l.map Prod.fst := by
  intro l
  induction l with
  | nil => intro n v h; cases h
  | cons p t ih =>
    intro n v h
    obtain ⟨k, w⟩ := p
    by_cases hk : k = n
    · subst hk; simp
    · simp only [lookupName, if_neg hk] at h
      simpa using Or.inr (ih n v h)

theorem lookupName_eq_none {α : Type} :
    ∀ (l : List (String × α)) (n : String),
      lookupName l n = none ↔ n ∉ l.map Prod.fst := by
  intro l
  induction l with
  | nil => intro n; simp [lookupName]
  | cons p t ih =>
    intro n
    obtain ⟨k, w⟩ := p
    by_cases hk : k = n
    · subst hk; simp [lookupName]
    · have hk' : ¬ n = k := fun h => hk h.symm
      simp [lookupName, hk, hk', ih n]

theorem lookupName_append {α : Type} :
    ∀ (l₁ l₂ : List (String × α)) (n : String),
      lookupName (l₁ ++ l₂) n =
        match lookupName l₁ n with
        | some v => some v
        | none => lookupName l₂ n := by
  intro l₁
  induction l₁ with
  | nil => intro l₂ n; simp [lookupName]
  | cons p t ih =>
    intro l₂ n
    obtain ⟨k, w⟩ := p
    by_cases hk : k = n <;> simp [lookupName, hk, ih]

end dependency

/-- C3: for every declaration whose inputs set transitively includes its own
name (over the engine's installed declarations extended with the new one),
the install operation fails at install time with the cycle-detected error and
leaves the engine's installed set and all worker records exactly as they were
before the call. -/
theorem dependency_install_cycle_rejected
    (e : dependency.Engine) (name : String) (d : dependency.Declaration)
    (hfresh : dependency.lookupName e.records name = none)
    (hcyc : dependency.reaches (e.decls ++ [(name, d)]) (e.decls ++ [(name, d)]).length
      name name = true) :
    e.install name d = (e, some dependency.EngineError.errCyclicDependency) := by
  unfold dependency.Engine.install
  rw [hfresh]
  have hcyc' : dependency.reaches (e.decls ++ [(name, d)]) (e.decls.length + 1)
      name name = true := by simpa using hcyc
  simp [hcyc']

/-- Witness for C3: installing "a" with inputs ["a"] into the empty engine is
rejected with the cycle error and the engine is unchanged. -/
theorem dependency_install_cycle_rejected_witness :
    dependency.Engine.install { records := [] } "a" { inputs := ["a"] } =
      ({ records := [] }, some dependency.EngineError.errCyclicDependency) :=
  dependency_install_cycle_rejected _ _ _ rfl rfl

/-- C4: for every installed name that is currently listed among the inputs of
some other installed declaration, uninstall of that name fails with
ErrStillDepended and performs no mutation of the engine's state. -/
theorem dependency_uninstall_still_depended
    (e : dependency.Engine) (name other : String) (r : dependency.Record)
    (hinst : (dependency.lookupName e.records name).isSome = true)
    (hmem : (other, r) ∈ e.records)
    (_hother : other ≠ name)
    (hdep : name ∈ r.decl.inputs) :
    e.uninstall name = (e, some dependency.EngineError.errStillDepended) := by
  unfold dependency.Engine.uninstall
  obtain ⟨rec, hrec⟩ := Option.isSome_iff_exists.mp hinst
  rw [hrec]
  have hany : e.records.any (fun p => p.2.decl.inputs.contains name) = true := by
    rw [List.any_eq_true]
    exact ⟨(other, r), hmem, by simpa using hdep⟩
  rw [hany]
  simp

/-- Witness for C4: with "b" (inputs ["a"]) and "a" installed, uninstalling
"a" fails with ErrStillDepended and the engine is unchanged. -/
theorem dependency_uninstall_still_depended_witness :
    dependency.Engine.uninstall
        { records := [("b", { decl := { inputs := ["a"] } }),
                      ("a", { decl := { inputs := [] } })] } "a" =
      ({ records := [("b", { decl := { inputs := ["a"] } }),
                     ("a", { decl := { inputs := [] } })] },
        some dependency.EngineError.errStillDepended) :=
  dependency_uninstall_still_depended _ "a" "b" { decl := { inputs := ["a"] } }
    rfl (List.Mem.head _) (by decide) (by simp)

namespace dependency

theorem levelOf_lt (decls : List (String × Declaration)) (n : String) :
    levelOf decls n < decls.length + 2 := by
  unfold levelOf
  split
  · rename_i k hk
    have hmem := List.mem_of_find?_eq_some hk
    have := List.mem_range.mp hmem
    omega
  · omega

theorem mem_topoOrder {decls : List (String × Declaration)} {names : List String}
    {b : String} (h : b ∈ names) : b ∈ topoOrder decls names := by
  unfold topoOrder
  rw [List.mem_flatten]
  refine ⟨names.filter (fun n => levelOf decls n == levelOf decls b), ?_, ?_⟩
  · rw [List.mem_map]
    exact ⟨levelOf decls b, List.mem_range.mpr (levelOf_lt decls b), rfl⟩
  · rw [List.mem_filter]
    exact ⟨h, by simp⟩

theorem mem_transitiveDependents
    {decls : List (String × Declaration)} {a b : String} {db : Declaration}
    (hb : lookupName decls b = some db) (ha : a ∈ db.inputs) :
    b ∈ transitiveDependents decls a := by
  unfold transitiveDependents
  rw [List.mem_filter]
  constructor
  · exact mem_keys_of_lookupName decls b db hb
  · have hin : inputsOf decls b = db.inputs := by unfold inputsOf; rw [hb]
    have hlen : decls.length ≠ 0 := by
      intro h0
      rw [List.length_eq_zero] at h0
      subst h0
      cases hb
    obtain ⟨k, hk⟩ : ∃ k, decls.length = k + 1 := ⟨decls.length - 1, by omega⟩
    rw [hk]
    show reaches decls (k + 1) b a = true
    simp only [reaches, hin, List.any_eq_true]
    exact ⟨a, ha, by simp⟩

end dependency

/-- C1: for every pair of installed components A and B where B declares A
among its inputs, the bounce of A stops B, then stops A, then restarts A,
then restarts B — so B's Context never observes A in a new state before B
itself has been stopped. -/
theorem dependency_bounce_stops_dependents_first
    (e : dependency.Engine) (a b : String) (db : dependency.Declaration)
    (hb : dependency.lookupName e.decls b = some db)
    (ha : a ∈ db.inputs) :
    ∃ p q r s, dependency.bounceTrace e.decls a =
      p ++ dependency.Action.stop b ::
        (q ++ dependency.Action.stop a :: dependency.Action.start a ::
          (r ++ dependency.Action.start b :: s)) := by
  have hmem : b ∈ dependency.topoOrder e.decls
      (dependency.transitiveDependents e.decls a) :=
    dependency.mem_topoOrder (dependency.mem_transitiveDependents hb ha)
  obtain ⟨u, v, huv⟩ := List.append_of_mem hmem
  refine ⟨v.reverse.map dependency.Action.stop, u.reverse.map dependency.Action.stop,
    u.map dependency.Action.start, v.map dependency.Action.start, ?_⟩
  unfold dependency.bounceTrace
  rw [huv]
  simp

/-- Witness for C1: bouncing "A" with "B" (inputs ["A"]) installed produces
the trace stop B, stop A, start A, start B. -/
theorem dependency_bounce_stops_dependents_first_witness :
    ∃ p q r s,
      dependency.bounceTrace
          (dependency.Engine.mk
            [("A", { decl := { inputs := [] } }),
             ("B", { decl := { inputs := ["A"] } })]).decls "A" =
        p ++ dependency.Action.stop "B" ::
          (q ++ dependency.Action.stop "A" :: dependency.Action.start "A" ::
            (r ++ dependency.Action.start "B" :: s)) :=
  dependency_bounce_stops_dependents_first _ "A" "B" { inputs := ["A"] } rfl
    (by simp)

namespace dependency

theorem foldl_absorbFatal_some (decls : List (String × Declaration)) :
    ∀ (evs : List ExitEvent) (f : EngineError),
      evs.foldl (absorbFatal decls) (some f) = some f := by
  intro evs
  induction evs with
  | nil => intro f; rfl
  | cons ev t ih =>
    intro f
    rw [List.foldl_cons]
    show t.foldl (absorbFatal decls) (some f) = some f
    exact ih f

theorem engineResult_cons (decls : List (String × Declaration)) (ev : ExitEvent)
    (t : List ExitEvent) :
    engineResult decls (ev :: t) =
      if classify (filteredError decls ev) = Severity.fatal then
        some (filteredError decls ev)
      else engineResult decls t := by
  unfold engineResult
  rw [List.foldl_cons]
  by_cases h : classify (filteredError decls ev) = Severity.fatal
  · rw [if_pos h]
    have : absorbFatal decls none ev = some (filteredError decls ev) := by
      unfold absorbFatal
      rw [if_pos h]
    rw [this, foldl_absorbFatal_some]
  · rw [if_neg h]
    have : absorbFatal decls none ev = none := by
      unfold absorbFatal
      rw [if_neg h]
    rw [this]

theorem engineResult_append_no_fatal (decls : List (String × Declaration))
    (l₁ l₂ : List ExitEvent)
    (h : ∀ x ∈ l₁, classify (filteredError decls x) ≠ Severity.fatal) :
    engineResult decls (l₁ ++ l₂) = engineResult decls l₂ := by
  induction l₁ with
  | nil => rfl
  | cons hd t ih =>
    rw [List.cons_append, engineResult_cons,
      if_neg (h hd (List.mem_cons_self hd t))]
    exact ih fun x hx => h x (List.mem_cons_of_mem hd hx)

end dependency

/-- C2: for every execution in which at least one worker error is classified
Fatal, the engine's wait-for-completion operation returns the first fatal
error encountered (in arrival order), and once shutdown has begun no later
fatal error replaces it as the terminal result. -/
theorem dependency_first_fatal_is_terminal
    (decls : List (String × dependency.Declaration))
    (evs : List dependency.ExitEvent) (ev : dependency.ExitEvent)
    (hmem : ev ∈ evs)
    (hfatal : dependency.classify (dependency.filteredError decls ev)
      = dependency.Severity.fatal) :
    ∃ l₁ ev₀ l₂,
      evs = l₁ ++ ev₀ :: l₂ ∧
      (∀ x ∈ l₁,
        dependency.classify (dependency.filteredError decls x)
          ≠ dependency.Severity.fatal) ∧
      dependency.classify (dependency.filteredError decls ev₀)
        = dependency.Severity.fatal ∧
      dependency.engineResult decls evs
        = some (dependency.filteredError decls ev₀) := by
  induction evs with
  | nil => cases hmem
  | cons hd t ih =>
    by_cases hhd : dependency.classify (dependency.filteredError decls hd)
        = dependency.Severity.fatal
    · refine ⟨[], hd, t, rfl, by simp, hhd, ?_⟩
      rw [dependency.engineResult_cons, if_pos hhd]
    · have hmem' : ev ∈ t := by
        rcases List.mem_cons.mp hmem with h | h
        · subst h; exact absurd hfatal hhd
        · exact h
      obtain ⟨l₁, ev₀, l₂, heq, hnf, hf, hres⟩ := ih hmem'
      refine ⟨hd :: l₁, ev₀, l₂, by rw [heq, List.cons_append], ?_, hf, ?_⟩
      · intro x hx
        rcases List.mem_cons.mp hx with h | h
        · subst h; exact hhd
        · exact hnf x h
      · rw [dependency.engineResult_cons, if_neg hhd, hres]

/-- Witness for C2: a retryable worker failure followed by a terminate-agent
exit — the wait result is the terminate-agent error, the first fatal. -/
theorem dependency_first_fatal_is_terminal_witness :
    ∃ l₁ ev₀ l₂,
      ([dependency.ExitEvent.mk "w" (dependency.EngineError.workerFailure 0),
        dependency.ExitEvent.mk "t" dependency.EngineError.errTerminateAgent])
        = l₁ ++ ev₀ :: l₂ ∧
      (∀ x ∈ l₁,
        dependency.classify (dependency.filteredError [] x)
          ≠ dependency.Severity.fatal) ∧
      dependency.classify (dependency.filteredError [] ev₀)
        = dependency.Severity.fatal ∧
      dependency.engineResult []
          [dependency.ExitEvent.mk "w" (dependency.EngineError.workerFailure 0),
           dependency.ExitEvent.mk "t" dependency.EngineError.errTerminateAgent]
        = some (dependency.filteredError [] ev₀) :=
  dependency_first_fatal_is_terminal [] _
    (dependency.ExitEvent.mk "t" dependency.EngineError.errTerminateAgent)
    (by simp) (by decide)

/-- C6: for every execution in which some worker exits with the terminate
agent sentinel error (with no earlier fatal error), the engine's terminal
wait returns that error, and after the engine terminates no installed
component's worker is still running — every record is Stopped. -/
theorem dependency_terminate_agent_shuts_engine_down
    (e : dependency.Engine) (l₁ l₂ : List dependency.ExitEvent)
    (ev : dependency.ExitEvent)
    (hterm : dependency.filteredError e.decls ev
      = dependency.EngineError.errTerminateAgent)
    (hpre : ∀ x ∈ l₁,
      dependency.classify (dependency.filteredError e.decls x)
        ≠ dependency.Severity.fatal) :
    (e.runToTermination (l₁ ++ ev :: l₂)).2
        = some dependency.EngineError.errTerminateAgent ∧
      ∀ p ∈ (e.runToTermination (l₁ ++ ev :: l₂)).1.records,
        p.2.state = dependency.WorkerState.stopped := by
  have hres : dependency.engineResult e.decls (l₁ ++ ev :: l₂)
      = some dependency.EngineError.errTerminateAgent := by
    rw [dependency.engineResult_append_no_fatal e.decls l₁ (ev :: l₂) hpre,
      dependency.engineResult_cons, hterm]
    simp [dependency.classify]
  unfold dependency.Engine.runToTermination
  rw [hres]
  refine ⟨rfl, ?_⟩
  intro p hp
  unfold dependency.Engine.stopAll at hp
  obtain ⟨q, _hq, hqp⟩ := List.mem_map.mp hp
  rw [← hqp]

/-- Witness for C6: the termination watcher exits with terminate-agent while
another worker is Started; the terminal wait returns the error and both
records end Stopped. -/
theorem dependency_terminate_agent_shuts_engine_down_witness :
    (dependency.Engine.runToTermination
        { records := [("t", { decl := { inputs := [] } }),
                      ("w", { decl := { inputs := [] },
                              state := dependency.WorkerState.started })] }
        ([] ++ dependency.ExitEvent.mk "t"
          dependency.EngineError.errTerminateAgent :: [])).2
      = some dependency.EngineError.errTerminateAgent ∧
    ∀ p ∈ (dependency.Engine.runToTermination
        { records := [("t", { decl := { inputs := [] } }),
                      ("w", { decl := { inputs := [] },
                              state := dependency.WorkerState.started })] }
        ([] ++ dependency.ExitEvent.mk "t"
          dependency.EngineError.errTerminateAgent :: [])).1.records,
      p.2.state = dependency.WorkerState.stopped :=
  dependency_terminate_agent_shuts_engine_down _ [] [] _ rfl (by simp)

namespace dependency

theorem any_congr_fun {α : Type} {p q : α → Bool} (h : ∀ x, p x = q x) :
    ∀ l : List α, l.any p = l.any q := by
  intro l
  induction l with
  | nil => rfl
  | cons a t ih => simp only [List.any_cons, h a, ih]

theorem all_congr_fun {α : Type} {p q : α → Bool} (h : ∀ x, p x = q x) :
    ∀ l : List α, l.all p = l.all q := by
  intro l
  induction l with
  | nil => rfl
  | cons a t ih => simp only [List.all_cons, h a, ih]

theorem lookupName_congr_of_perm {α : Type} {l₁ l₂ : List (String × α)}
    (hperm : l₁.Perm l₂) :
    (l₁.map Prod.fst).Nodup → ∀ n, lookupName l₁ n = lookupName l₂ n := by
  induction hperm with
  | nil => intro _ n; rfl
  | cons x hp ih =>
    intro hnd n
    obtain ⟨k, v⟩ := x
    rw [List.map_cons, List.nodup_cons] at hnd
    by_cases hk : k = n
    · simp [lookupName, hk]
    · simp [lookupName, hk, ih hnd.2 n]
  | swap x y l =>
    intro hnd n
    obtain ⟨k₁, v₁⟩ := x
    obtain ⟨k₂, v₂⟩ := y
    rw [List.map_cons, List.map_cons, List.nodup_cons] at hnd
    have hne : k₂ ≠ k₁ := fun h => hnd.1 (h ▸ List.mem_cons_self _ _)
    by_cases h1 : k₁ = n <;> by_cases h2 : k₂ = n
    · exact absurd (h2.trans h1.symm) hne
    · simp [lookupName, h1, h2]
    · simp [lookupName, h1, h2]
    · simp [lookupName, h1, h2]
  | trans hp₁ hp₂ ih₁ ih₂ =>
    intro hnd n
    have hnd₂ := (hp₁.map Prod.fst).nodup hnd
    rw [ih₁ hnd n, ih₂ hnd₂ n]

theorem inputsOf_congr {d₁ d₂ : List (String × Declaration)}
    (h : ∀ n, lookupName d₁ n = lookupName d₂ n) (n : String) :
    inputsOf d₁ n = inputsOf d₂ n := by
  unfold inputsOf
  rw [h n]

theorem reaches_congr {d₁ d₂ : List (String × Declaration)}
    (h : ∀ n, lookupName d₁ n = lookupName d₂ n) :
    ∀ (f : Nat) (a b : String), reaches d₁ f a b = reaches d₂ f a b := by
  intro f
  induction f with
  | zero => intro a b; rfl
  | succ k ih =>
    intro a b
    simp only [reaches]
    rw [inputsOf_congr h a]
    exact any_congr_fun (fun x => by rw [ih x b]) _

theorem startedAt_congr {d₁ d₂ : List (String × Declaration)}
    (h : ∀ n, lookupName d₁ n = lookupName d₂ n) :
    ∀ (k : Nat) (n : String), startedAt d₁ k n = startedAt d₂ k n := by
  intro k
  induction k with
  | zero => intro n; rfl
  | succ k ih =>
    intro n
    simp only [startedAt]
    rw [h n]
    cases lookupName d₂ n with
    | none => rfl
    | some d => exact all_congr_fun (fun m => ih m) d.inputs

theorem reaches_mono_fuel (decls : List (String × Declaration)) :
    ∀ (f f' : Nat), f ≤ f' → ∀ (a b : String),
      reaches decls f a b = true → reaches decls f' a b = true := by
  intro f
  induction f with
  | zero =>
    intro f' _ a b h
    exact absurd h (by simp [reaches])
  | succ k ih =>
    intro f' hle a b hr
    obtain ⟨k', rfl⟩ : ∃ k', f' = k' + 1 := ⟨f' - 1, by omega⟩
    have hk : k ≤ k' := by omega
    simp only [reaches, List.any_eq_true] at hr ⊢
    obtain ⟨m, hm, hp⟩ := hr
    refine ⟨m, hm, ?_⟩
    have hp' : m = b ∨ reaches decls k m b = true := by simpa using hp
    rcases hp' with h | h
    · simp [h]
    · simp [ih k' hk m b h]

theorem reaches_mono_lookup {d₁ d₂ : List (String × Declaration)}
    (hmono : ∀ n v, lookupName d₁ n = some v → lookupName d₂ n = some v) :
    ∀ (f : Nat) (a b : String),
      reaches d₁ f a b = true → reaches d₂ f a b = true := by
  intro f
  induction f with
  | zero =>
    intro a b h
    exact absurd h (by simp [reaches])
  | succ k ih =>
    intro a b hr
    simp only [reaches, List.any_eq_true] at hr ⊢
    obtain ⟨m, hm, hp⟩ := hr
    obtain ⟨d, hd⟩ : ∃ d, lookupName d₁ a = some d := by
      unfold inputsOf at hm
      cases hl : lookupName d₁ a with
      | none => rw [hl] at hm; cases hm
      | some d => exact ⟨d, rfl⟩
    have hm₂ : m ∈ inputsOf d₂ a := by
      unfold inputsOf at hm ⊢
      rw [hd] at hm
      rw [hmono a d hd]
      exact hm
    refine ⟨m, hm₂, ?_⟩
    have hp' : m = b ∨ reaches d₁ k m b = true := by simpa using hp
    rcases hp' with h | h
    · simp [h]
    · simp [ih m b h]

theorem decls_recordsOf (ds : List (String × Declaration)) :
    (Engine.mk (recordsOf ds)).decls = ds := by
  unfold Engine.decls recordsOf
  induction ds with
  | nil => rfl
  | cons p t ih => simp [ih]

theorem keys_recordsOf (ds : List (String × Declaration)) :
    (recordsOf ds).map Prod.fst = ds.map Prod.fst := by
  unfold recordsOf
  induction ds with
  | nil => rfl
  | cons p t ih => simp [ih]

theorem installAll_recordsOf :
    ∀ (l pre : List (String × Declaration)),
      ((pre ++ l).map Prod.fst).Nodup →
      acyclicDecls (pre ++ l) = true →
      Engine.installAll (Engine.mk (recordsOf pre)) l
        = (Engine.mk (recordsOf (pre ++ l)), none) := by
  intro l
  induction l with
  | nil =>
    intro pre _ _
    simp [Engine.installAll]
  | cons nd t ih =>
    intro pre hnd hacyc
    obtain ⟨n, d⟩ := nd
    have hkeys : ((pre.map Prod.fst) ++ n :: (t.map Prod.fst)).Nodup := by
      simpa using hnd
    have hfreshmem : n ∉ pre.map Prod.fst := by
      rw [List.nodup_append] at hkeys
      exact fun hmem => hkeys.2.2 hmem (List.mem_cons_self _ _)
    have hfresh : lookupName (recordsOf pre) n = none := by
      rw [lookupName_eq_none, keys_recordsOf]
      exact hfreshmem
    have hnocyc : reaches (pre ++ [(n, d)]) (pre ++ [(n, d)]).length n n = false := by
      by_contra hc
      rw [Bool.not_eq_false] at hc
      have hmono : ∀ m v, lookupName (pre ++ [(n, d)]) m = some v →
          lookupName (pre ++ (n, d) :: t) m = some v := by
        intro m v hm
        have hsplit : pre ++ (n, d) :: t = (pre ++ [(n, d)]) ++ t := by simp
        rw [hsplit, lookupName_append, hm]
      have h1 : reaches (pre ++ (n, d) :: t) (pre ++ [(n, d)]).length n n = true :=
        reaches_mono_lookup hmono _ n n hc
      have h2 : reaches (pre ++ (n, d) :: t) (pre ++ (n, d) :: t).length n n = true := by
        refine reaches_mono_fuel _ _ _ ?_ n n h1
        simp
      have hmemkeys : n ∈ keysOf (pre ++ (n, d) :: t) := by
        unfold keysOf
        simp
      have h3 := (List.all_eq_true.mp hacyc) n hmemkeys
      rw [h2] at h3
      cases h3
    have hnocyc' : reaches (pre ++ [(n, d)]) (pre.length + 1) n n = false := by
      simpa using hnocyc
    have hstep : (Engine.mk (recordsOf pre)).install n d
        = (Engine.mk (recordsOf (pre ++ [(n, d)])), none) := by
      unfold Engine.install
      rw [hfresh, decls_recordsOf]
      simp [hnocyc', recordsOf]
    have hassoc : pre ++ (n, d) :: t = (pre ++ [(n, d)]) ++ t := by simp
    calc Engine.installAll (Engine.mk (recordsOf pre)) ((n, d) :: t)
        = Engine.installAll (Engine.mk (recordsOf (pre ++ [(n, d)]))) t := by
          show (match (Engine.mk (recordsOf pre)).install n d with
            | (e', none) => e'.installAll t
            | (e', some err) => (e', some err))
            = Engine.installAll (Engine.mk (recordsOf (pre ++ [(n, d)]))) t
          rw [hstep]
      _ = (Engine.mk (recordsOf ((pre ++ [(n, d)]) ++ t)), none) := by
          refine ih (pre ++ [(n, d)]) ?_ ?_
          · rw [← hassoc]; exact hnd
          · rw [← hassoc]; exact hacyc
      _ = (Engine.mk (recordsOf (pre ++ (n, d) :: t)), none) := by rw [← hassoc]

theorem installAll_fresh (l : List (String × Declaration))
    (hnd : (l.map Prod.fst).Nodup) (hacyc : acyclicDecls l = true) :
    Engine.installAll (Engine.mk []) l = (Engine.mk (recordsOf l), none) := by
  have h := installAll_recordsOf l [] (by simpa using hnd) (by simpa using hacyc)
  rw [show recordsOf [] = [] from rfl] at h
  simpa using h

theorem acyclicDecls_congr_of_perm {l₁ l₂ : List (String × Declaration)}
    (hperm : l₁.Perm l₂) (hnd : (l₁.map Prod.fst).Nodup)
    (hacyc : acyclicDecls l₁ = true) : acyclicDecls l₂ = true := by
  unfold acyclicDecls at hacyc ⊢
  rw [List.all_eq_true] at hacyc ⊢
  intro x hx
  have hx₁ : x ∈ keysOf l₁ := by
    unfold keysOf at hx ⊢
    exact (hperm.map Prod.fst).mem_iff.mpr hx
  have h := hacyc x hx₁
  have hcong := reaches_congr (lookupName_congr_of_perm hperm hnd) l₂.length x x
  rw [← hcong, ← hperm.length_eq]
  exact h

end dependency

/-- C5: for every acyclic set of declarations with distinct names, installing
them into a fresh engine in any permutation of orders succeeds and yields the
same final started/stopped state for every name; in particular, for
`{A: no inputs}` and `{B: inputs=[A]}` installed in order B then A, the
engine starts A before B and B's Context fetches A's output successfully. -/
theorem dependency_install_order_independent :
    (∀ (l₁ l₂ : List (String × dependency.Declaration)),
      l₁.Perm l₂ →
      (l₁.map Prod.fst).Nodup →
      dependency.acyclicDecls l₁ = true →
      (dependency.Engine.installAll ⟨[]⟩ l₁).2 = none ∧
      (dependency.Engine.installAll ⟨[]⟩ l₂).2 = none ∧
      ∀ n, dependency.startedFinal (dependency.Engine.installAll ⟨[]⟩ l₁).1.decls n
            = dependency.startedFinal (dependency.Engine.installAll ⟨[]⟩ l₂).1.decls n) ∧
    ((dependency.Engine.installAll ⟨[]⟩
        [("B", { inputs := ["A"] }), ("A", { inputs := [] })]).2 = none ∧
      dependency.startOrder
          (dependency.Engine.installAll ⟨[]⟩
            [("B", { inputs := ["A"] }), ("A", { inputs := [] })]).1.decls
        = ["A", "B"] ∧
      dependency.contextGet
          (dependency.Engine.installAll ⟨[]⟩
            [("B", { inputs := ["A"] }), ("A", { inputs := [] })]).1.decls
          (dependency.startedAt
            (dependency.Engine.installAll ⟨[]⟩
              [("B", { inputs := ["A"] }), ("A", { inputs := [] })]).1.decls 1)
          "B" "A" = none) := by
  constructor
  · intro l₁ l₂ hperm hnd hacyc
    have hnd₂ : (l₂.map Prod.fst).Nodup := (hperm.map Prod.fst).nodup hnd
    have hacyc₂ := dependency.acyclicDecls_congr_of_perm hperm hnd hacyc
    have hinst₁ := dependency.installAll_fresh l₁ hnd hacyc
    have hinst₂ := dependency.installAll_fresh l₂ hnd₂ hacyc₂
    refine ⟨?_, ?_, ?_⟩
    · rw [hinst₁]
    · rw [hinst₂]
    · intro n
      rw [hinst₁, hinst₂]
      show dependency.startedFinal (dependency.Engine.mk (dependency.recordsOf l₁)).decls n
        = dependency.startedFinal (dependency.Engine.mk (dependency.recordsOf l₂)).decls n
      rw [dependency.decls_recordsOf, dependency.decls_recordsOf]
      unfold dependency.startedFinal
      rw [hperm.length_eq]
      exact dependency.startedAt_congr
        (dependency.lookupName_congr_of_perm hperm hnd) l₂.length n
  · refine ⟨by decide, by decide, by decide⟩

/-- Witness for C5: the two installation orders of `{A: no inputs}` and
`{B: inputs=[A]}` both succeed and agree on the final state of "A" and "B". -/
theorem dependency_install_order_independent_witness :
    (dependency.Engine.installAll ⟨[]⟩
        [("B", { inputs := ["A"] }), ("A", { inputs := [] })]).2 = none ∧
    (dependency.Engine.installAll ⟨[]⟩
        [("A", { inputs := [] }), ("B", { inputs := ["A"] })]).2 = none ∧
    dependency.startedFinal
        (dependency.Engine.installAll ⟨[]⟩
          [("B", { inputs := ["A"] }), ("A", { inputs := [] })]).1.decls "A"
      = dependency.startedFinal
          (dependency.Engine.installAll ⟨[]⟩
            [("A", { inputs := [] }), ("B", { inputs := ["A"] })]).1.decls "A" ∧
    dependency.startedFinal
        (dependency.Engine.installAll ⟨[]⟩
          [("B", { inputs := ["A"] }), ("A", { inputs := [] })]).1.decls "B"
      = dependency.startedFinal
          (dependency.Engine.installAll ⟨[]⟩
            [("A", { inputs := [] }), ("B", { inputs := ["A"] })]).1.decls "B" := by
  have h := dependency_install_order_independent.1
    [("B", { inputs := ["A"] }), ("A", { inputs := [] })]
    [("A", { inputs := [] }), ("B", { inputs := ["A"] })]
    (List.Perm.swap (("A", { inputs := [] }) : String × dependency.Declaration)
      (("B", { inputs := ["A"] }) : String × dependency.Declaration) [])
    (by decide) (by decide)
  exact ⟨h.1, h.2.1, h.2.2 "A", h.2.2 "B"⟩
